import Mathlib

/-!
# Verification of the sobriety-tracker statistics engine

Shallow embedding of the statistics and streak-aggregation engine of the
`sober_app` repository (`app/tracker.py`, `app/report.py`, `app/ui.py`),
together with proofs and refutations of the specification's claims.

The log is modelled as an association list from date-key strings to entry
records, in dict insertion order.  Monetary amounts are modelled as exact
rationals.  Python's `try/except` around `float(...)` is modelled by an
explicit `Except`-valued parse; `datetime.strptime(s, "%Y-%m-%d")` is
modelled by a parser for the canonical zero-padded `YYYY-MM-DD` grammar
that the spec's §3 date contract fixes.
-/

/-- Modelled from the spec: `app/constants.py` is not part of the provided
sources (only its importers are).  The spec's Scenario B fixes the
configured default spend at 40.0, and `app/ui.py` hard-codes the same
constant `40` inline. -/
def DEFAULT_AMOUNT : ℚ := 40

/-- The raw value stored under `amount_spent`: either a value that
`float(...)` converts to the rational `q`, or a value on which
`float(...)` raises. -/
inductive SpentVal where
  | num (q : ℚ)
  | bad
  deriving DecidableEq, Repr

/-- One log record.  Only the fields the aggregation engine reads are
modelled; `none` models an absent dict key (so `record.get(k, d)`
becomes `Option.getD`). -/
structure Entry where
  sober : Option Bool
  amount_spent : Option SpentVal
  deriving DecidableEq, Repr

/-- The daily log: date-key strings mapped to entries, in insertion
order (Python dict iteration order). -/
abbrev Log := List (String × Entry)

/-- `record.get("sober", False)` — tracker.py line 78 and friends. -/
def soberGet (e : Entry) : Bool := e.sober.getD false

/-- `float(record.get("amount_spent", DEFAULT_AMOUNT))`:
an absent key yields the default (which converts), a stored numeric
value converts to itself, and an unconvertible value raises. -/
def floatSpent (e : Entry) : Except Unit ℚ :=
  match e.amount_spent with
  | none => .ok DEFAULT_AMOUNT
  | some (.num q) => .ok q
  | some .bad => .error ()

/-- The effective spend of an entry — tracker.py lines 81–87:
parse with fallback to the default on failure, then substitute the
default for an exact zero.  (print_statistics lines 185–190 place the
zero test inside the `try`, which yields the same value since a
successful `float` cannot raise afterwards.) -/
def effectiveSpend (e : Entry) : ℚ :=
  let amt := match floatSpent e with
    | .ok q => q
    | .error _ => DEFAULT_AMOUNT
  if amt = 0 then DEFAULT_AMOUNT else amt

/-- ui.py lines 59–64: the calendar view repeats the effective-spend
computation with the literal constant `40` in place of
`DEFAULT_AMOUNT`. -/
def uiEffectiveSpend (e : Entry) : ℚ :=
  let amt := match e.amount_spent with
    | none => 40
    | some (.num q) => q
    | some .bad => 40
  if amt = 0 then 40 else amt

/-! ## Calendar dates

`datetime.strptime(date_str, "%Y-%m-%d")` followed by use of the parsed
date.  The spec (§3) fixes the key format to zero-padded `YYYY-MM-DD`;
the parser below accepts exactly the canonical strings of that grammar
that denote a valid Gregorian calendar date with a positive year. -/

/-- A parsed calendar date. -/
structure Date where
  year : Nat
  month : Nat
  day : Nat
  deriving DecidableEq, Repr

/-- Gregorian leap-year test. -/
def isLeap (y : Nat) : Bool := (y % 4 == 0 && y % 100 != 0) || y % 400 == 0

/-- Days in a month of a given year. -/
def daysInMonth (y m : Nat) : Nat :=
  if m = 2 then (if isLeap y then 29 else 28)
  else if m = 4 ∨ m = 6 ∨ m = 9 ∨ m = 11 then 30
  else 31

/-- Numeric value of a decimal digit character. -/
def digitVal (c : Char) : Nat := c.toNat - 48

/-- Parse a canonical `YYYY-MM-DD` string to a valid calendar date;
`none` models `strptime` raising `ValueError`. -/
def parseDate (s : String) : Option Date :=
  match s.data with
  | [y1, y2, y3, y4, h1, m1, m2, h2, d1, d2] =>
    if h1 = '-' ∧ h2 = '-' ∧ y1.isDigit ∧ y2.isDigit ∧ y3.isDigit ∧ y4.isDigit ∧
        m1.isDigit ∧ m2.isDigit ∧ d1.isDigit ∧ d2.isDigit then
      let y := 1000 * digitVal y1 + 100 * digitVal y2 + 10 * digitVal y3 + digitVal y4
      let m := 10 * digitVal m1 + digitVal m2
      let dd := 10 * digitVal d1 + digitVal d2
      if 1 ≤ y ∧ 1 ≤ m ∧ m ≤ 12 ∧ 1 ≤ dd ∧ dd ≤ daysInMonth y m then
        some ⟨y, m, dd⟩
      else none
    else none
  | _ => none

/-- Day count at the start of month `m` (proleptic Gregorian). -/
def daysBeforeMonth (y m : Nat) : Nat :=
  (match m with
   | 1 => 0 | 2 => 31 | 3 => 59 | 4 => 90 | 5 => 120 | 6 => 151 | 7 => 181
   | 8 => 212 | 9 => 243 | 10 => 273 | 11 => 304 | _ => 334)
  + (if 3 ≤ m ∧ isLeap y then 1 else 0)

/-- `datetime.date.toordinal`: day number in the proleptic Gregorian
calendar, so that `(d2 - d1).days = ordinal d2 - ordinal d1`. -/
def ordinal (d : Date) : Nat :=
  365 * (d.year - 1) + ((d.year - 1) / 4 + (d.year - 1) / 400 - (d.year - 1) / 100)
    + daysBeforeMonth d.year d.month + d.day

/-- Lexicographic (chronological) order on parsed dates. -/
def dateLE (a b : Date) : Prop :=
  a.year < b.year ∨ (a.year = b.year ∧
    (a.month < b.month ∨ (a.month = b.month ∧ a.day ≤ b.day)))

/-- `sorted(daily_log.keys())` followed by per-key dict access:
with the dict's distinct keys this is sorting the (key, record) pairs
by Python's lexicographic string order. -/
def sortedLog (log : Log) : Log :=
  List.insertionSort (fun a b => a.1 ≤ b.1) log

/-! ## `SobrietyTracker.get_statistics` (tracker.py lines 60–95) -/

/-- A monthly bucket: `{"sober_days": …, "total_days": …, "spent": …}`. -/
structure MStat where
  sober_days : Nat
  total_days : Nat
  spent : ℚ
  deriving DecidableEq, Repr

/-- A yearly bucket: `{"sober_days": …, "total_days": …}`. -/
structure YStat where
  sober_days : Nat
  total_days : Nat
  deriving DecidableEq, Repr

/-- The two bucket dictionaries produced by `get_statistics`; a month
bucket is keyed by the parsed (year, month) pair (the code's
`"%Y-%m"` string key) and `none` models an absent key. -/
structure Stats where
  monthly : Nat × Nat → Option MStat
  yearly : Nat → Option YStat

/-- One iteration of the `get_statistics` loop (tracker.py lines 69–94):
skip unparsable keys, create buckets lazily, count the day, and add the
effective spend of a non-sober entry to the month bucket. -/
def statStep (st : Stats) (p : String × Entry) : Stats :=
  match parseDate p.1 with
  | none => st
  | some d =>
    let mk := (d.year, d.month)
    let m0 := (st.monthly mk).getD ⟨0, 0, 0⟩
    let m1 : MStat :=
      if soberGet p.2 then ⟨m0.sober_days + 1, m0.total_days + 1, m0.spent⟩
      else ⟨m0.sober_days, m0.total_days + 1, m0.spent + effectiveSpend p.2⟩
    let y0 := (st.yearly d.year).getD ⟨0, 0⟩
    let y1 : YStat :=
      if soberGet p.2 then ⟨y0.sober_days + 1, y0.total_days + 1⟩
      else ⟨y0.sober_days, y0.total_days + 1⟩
    { monthly := fun k => if k = mk then some m1 else st.monthly k
      yearly := fun k => if k = d.year then some y1 else st.yearly k }

/-- `SobrietyTracker.get_statistics`. -/
def get_statistics (log : Log) : Stats :=
  log.foldl statStep ⟨fun _ => none, fun _ => none⟩

/-- The percent formula printed for each bucket
(tracker.py line 160 / line 166): `sober/total*100` guarded by a
truthiness test on `total_days`. -/
def bucketPercent (sober_days total_days : Nat) : ℚ :=
  if total_days ≠ 0 then (sober_days : ℚ) / total_days * 100 else 0

/-! ## `SobrietyTracker.get_additional_stats` (tracker.py lines 97–142) -/

/-- State of the ascending longest-streak walk:
`longest_streak`, `current_streak`, `previous_date`. -/
structure StreakSt where
  longest : Nat
  current : Nat
  prev : Option Date
  deriving DecidableEq, Repr

/-- One iteration of the ascending walk (tracker.py lines 114–127,
duplicated verbatim at report.py lines 80–93): unparsable keys are
skipped without touching the state; a sober entry extends the run iff
the previous parsed date is exactly one day earlier, otherwise restarts
at 1; a non-sober entry zeroes the run; `previous_date` is updated by
every parsed entry. -/
def streakStep (st : StreakSt) (p : String × Entry) : StreakSt :=
  match parseDate p.1 with
  | none => st
  | some d =>
    if soberGet p.2 then
      let cur := match st.prev with
        | some pd => if (ordinal d : ℤ) - (ordinal pd : ℤ) = 1 then st.current + 1 else 1
        | none => 1
      ⟨max st.longest cur, cur, some d⟩
    else ⟨st.longest, 0, some d⟩

/-- The longest-streak figure: the ascending walk over the
string-sorted log. -/
def longestStreakOf (log : Log) : Nat :=
  ((sortedLog log).foldl streakStep ⟨0, 0, none⟩).longest

/-- The backwards current-streak loop (tracker.py lines 130–135,
duplicated verbatim at report.py lines 95–100): starting from the last
sorted key, count entries while `record.get("sober", False)` holds and
stop at the first failure.  No date parsing is involved. -/
def currentSeqOf (log : Log) : Nat :=
  ((sortedLog log).reverse.takeWhile (fun p => soberGet p.2)).length

/-- The result record of `get_additional_stats`. -/
structure AddStats where
  total_days : Nat
  percent_sober : ℚ
  longest_streak : Nat
  current_streak : Nat
  deriving DecidableEq, Repr

/-- `SobrietyTracker.get_additional_stats`: `total_days` is the number
of (all) keys, `sober_days` counts entries whose `sober` field is
truthy, and the two streak figures come from the walks above. -/
def get_additional_stats (log : Log) : AddStats :=
  let total_days := (sortedLog log).length
  let sober_days := log.countP (fun p => soberGet p.2)
  { total_days := total_days
    percent_sober := if total_days ≠ 0 then (sober_days : ℚ) / total_days * 100 else 0
    longest_streak := longestStreakOf log
    current_streak := currentSeqOf log }

/-! ## Spending totals (tracker.py lines 176–193, repeated at
main.py lines 84–102) -/

/-- One iteration of the overall-spending loop: skip unparsable dates,
skip sober entries, otherwise add the effective spend. -/
def overallStep (acc : ℚ) (p : String × Entry) : ℚ :=
  match parseDate p.1 with
  | none => acc
  | some _ => if soberGet p.2 then acc else acc + effectiveSpend p.2

/-- Total amount spent on alcohol (overall). -/
def overall_spending (log : Log) : ℚ := log.foldl overallStep 0

/-- One iteration of the current-month spending accumulation for the
reference period `(nowY, nowM)`. -/
def spendStep (nowY nowM : Nat) (acc : ℚ) (p : String × Entry) : ℚ :=
  match parseDate p.1 with
  | none => acc
  | some d =>
    if soberGet p.2 then acc
    else if d.year = nowY ∧ d.month = nowM then acc + effectiveSpend p.2 else acc

/-- Current-period spending as a function of the log and a reference
year and month. -/
def currentMonthSpendingAt (log : Log) (nowY nowM : Nat) : ℚ :=
  log.foldl (spendStep nowY nowM) 0

/-- `print_statistics` computes its "current month" spending against
`datetime.now()`, read inside the method (tracker.py line 178); the
clock value is an explicit input of the model. -/
def printStatsCurrentMonthSpending (log : Log) (now : Date) : ℚ :=
  currentMonthSpendingAt log now.year now.month

/-! ## `display_calendar` period statistics (ui.py lines 46–69) -/

/-- The per-period figures the calendar view prints. -/
structure CalStats where
  total : Nat
  sober : Nat
  spent : ℚ
  deriving DecidableEq, Repr

/-- One iteration of the calendar-statistics loop: skip unparsable
dates, consider only entries of the displayed `(year, month)`, count
them, and accumulate the (literal-40) effective spend of non-sober
entries. -/
def calStep (y m : Nat) (st : CalStats) (p : String × Entry) : CalStats :=
  match parseDate p.1 with
  | none => st
  | some d =>
    if d.year = y ∧ d.month = m then
      if soberGet p.2 then ⟨st.total + 1, st.sober + 1, st.spent⟩
      else ⟨st.total + 1, st.sober, st.spent + uiEffectiveSpend p.2⟩
    else st

/-- `display_calendar`'s statistics for a caller-chosen year and month. -/
def display_calendar_stats (log : Log) (y m : Nat) : CalStats :=
  log.foldl (calStep y m) ⟨0, 0, 0⟩

/-! ## `ExcelReport.generate` summary figures (report.py lines 70–107) -/

/-- report.py lines 71–74. -/
def report_total_days (log : Log) : Nat := log.length

/-- report.py line 72. -/
def report_sober_days (log : Log) : Nat := log.countP (fun p => soberGet p.2)

/-- report.py line 74: guarded by `total_days > 0`. -/
def report_percent_sober (log : Log) : ℚ :=
  if 0 < log.length then (report_sober_days log : ℚ) / log.length * 100 else 0

/-- report.py lines 76–93 are a verbatim copy of the tracker's
ascending walk, so the model reuses `streakStep`. -/
def report_longest_streak (log : Log) : Nat :=
  ((sortedLog log).foldl streakStep ⟨0, 0, none⟩).longest

/-- report.py lines 95–100, the verbatim copy of the backwards loop. -/
def report_current_seq (log : Log) : Nat :=
  ((sortedLog log).reverse.takeWhile (fun p => soberGet p.2)).length

/-- One summand of the report's overall-spending generator
(report.py lines 102–107), for a record that already passed the
`not record.get("sober", False)` filter:
`float(r.get("amount_spent", DEFAULT)) if (not r.get("sober", True)) and float(...) > 0 else DEFAULT`.
When the `sober` key is absent, `r.get("sober", True)` is `True`, the
`and` short-circuits (no `float` call) and the default is produced;
otherwise `float` is evaluated and an unconvertible value raises. -/
def reportSpendTerm (e : Entry) : Except Unit ℚ :=
  match e.sober.getD true with
  | true => .ok DEFAULT_AMOUNT
  | false =>
    match floatSpent e with
    | .error u => .error u
    | .ok q => .ok (if 0 < q then q else DEFAULT_AMOUNT)

/-- Error-propagating accumulation of the report's spending sum: the
first raising term aborts the whole sum (and, through the outer
`try/except` of `generate`, the whole report). -/
def reportTermStep (acc : Except Unit ℚ) (p : String × Entry) : Except Unit ℚ :=
  match acc with
  | .error u => .error u
  | .ok a =>
    match reportSpendTerm p.2 with
    | .error u => .error u
    | .ok q => .ok (a + q)

/-- The report's overall spending: a sum over the non-sober entries of
the whole log (no date filtering), raising on the first unconvertible
`amount_spent` of an explicitly non-sober entry. -/
def report_overall_spending (log : Log) : Except Unit ℚ :=
  (log.filter (fun p => !soberGet p.2)).foldl reportTermStep (.ok 0)

/-! ## Characterization of the bucket dictionaries -/

/-- The entries whose key parses into month-bucket `k`. -/
def inMonthKey (k : Nat × Nat) (p : String × Entry) : Bool :=
  match parseDate p.1 with
  | some d => d.year == k.1 && d.month == k.2
  | none => false

/-- The entries whose key parses into year-bucket `y`. -/
def inYearKey (y : Nat) (p : String × Entry) : Bool :=
  match parseDate p.1 with
  | some d => d.year == y
  | none => false

/-- The validly-dated entries of `log` falling in month bucket `k`. -/
def monthEntries (log : Log) (k : Nat × Nat) : Log := log.filter (inMonthKey k)

/-- The validly-dated entries of `log` falling in year bucket `y`. -/
def yearEntries (log : Log) (y : Nat) : Log := log.filter (inYearKey y)

/-- Sum of effective spends of the non-sober entries of a list. -/
def spendSum (l : Log) : ℚ :=
  (l.filter (fun p => !soberGet p.2)).foldl (fun a p => a + effectiveSpend p.2) 0

/-- The action of one in-bucket entry on a month bucket. -/
def mUpd (o : Option MStat) (p : String × Entry) : Option MStat :=
  let m0 := o.getD ⟨0, 0, 0⟩
  some (if soberGet p.2 then ⟨m0.sober_days + 1, m0.total_days + 1, m0.spent⟩
        else ⟨m0.sober_days, m0.total_days + 1, m0.spent + effectiveSpend p.2⟩)

/-- The action of one in-bucket entry on a year bucket. -/
def yUpd (o : Option YStat) (p : String × Entry) : Option YStat :=
  let y0 := o.getD ⟨0, 0⟩
  some (if soberGet p.2 then ⟨y0.sober_days + 1, y0.total_days + 1⟩
        else ⟨y0.sober_days, y0.total_days + 1⟩)

/-- A key that `strptime` accepts. -/
def validKey (p : String × Entry) : Bool := (parseDate p.1).isSome

/-- The validly-dated entries of a list, with their parsed dates. -/
def datedEntries (l : Log) : List (Date × Entry) :=
  (l.filter validKey).map (fun p => ((parseDate p.1).getD ⟨1, 1, 1⟩, p.2))

/-- The streak recursion exactly as the specification words it, over
already-parsed dated entries: a sober entry extends the running streak
by 1 precisely when the previously examined date is one calendar day
earlier, any other sober entry restarts at 1, a non-sober entry resets
to 0, and the longest streak is the running maximum over all steps. -/
def specStreakStep (st : StreakSt) (p : Date × Entry) : StreakSt :=
  if soberGet p.2 then
    let cur := match st.prev with
      | some pd => if ordinal pd + 1 = ordinal p.1 then st.current + 1 else 1
      | none => 1
    ⟨max st.longest cur, cur, some p.1⟩
  else ⟨max st.longest 0, 0, some p.1⟩

/-- The longest-streak figure of the specification's recursion. -/
def claimLongestStreak (l : List (Date × Entry)) : Nat :=
  (l.foldl specStreakStep ⟨0, 0, none⟩).longest

instance keyLETotal : IsTotal (String × Entry) (fun a b => a.1 ≤ b.1) :=
  ⟨fun a b => le_total a.1 b.1⟩

instance keyLETrans : IsTrans (String × Entry) (fun a b => a.1 ≤ b.1) :=
  ⟨fun _ _ _ h1 h2 => le_trans h1 h2⟩

lemma statStep_monthly (st : Stats) (p : String × Entry) (k : Nat × Nat) :
    (statStep st p).monthly k =
      if inMonthKey k p then mUpd (st.monthly k) p else st.monthly k := by
  rcases hp : parseDate p.1 with _ | d
  · simp [statStep, inMonthKey, hp]
  · simp only [statStep, inMonthKey, hp]
    by_cases hk : k = (d.year, d.month)
    · subst hk
      simp [mUpd]
    · have : ¬ (d.year == k.1 && d.month == k.2) = true := by
        intro h
        simp only [Bool.and_eq_true, beq_iff_eq] at h
        exact hk (by cases k; simp_all)
      simp [this, hk]

lemma statStep_yearly (st : Stats) (p : String × Entry) (y : Nat) :
    (statStep st p).yearly y =
      if inYearKey y p then yUpd (st.yearly y) p else st.yearly y := by
  rcases hp : parseDate p.1 with _ | d
  · simp [statStep, inYearKey, hp]
  · simp only [statStep, inYearKey, hp]
    by_cases hk : y = d.year
    · subst hk
      simp [yUpd]
    · have : ¬ (d.year == y) = true := by
        intro h
        exact hk (beq_iff_eq.mp h).symm
      simp [this, hk]

lemma foldl_statStep_monthly (log : Log) (st : Stats) (k : Nat × Nat) :
    (log.foldl statStep st).monthly k =
      (monthEntries log k).foldl mUpd (st.monthly k) := by
  induction log generalizing st with
  | nil => rfl
  | cons p l ih =>
    simp only [List.foldl_cons, ih, monthEntries, List.filter_cons]
    rw [statStep_monthly]
    by_cases h : inMonthKey k p <;> simp [h, monthEntries]

lemma foldl_statStep_yearly (log : Log) (st : Stats) (y : Nat) :
    (log.foldl statStep st).yearly y =
      (yearEntries log y).foldl yUpd (st.yearly y) := by
  induction log generalizing st with
  | nil => rfl
  | cons p l ih =>
    simp only [List.foldl_cons, ih, yearEntries, List.filter_cons]
    rw [statStep_yearly]
    by_cases h : inYearKey y p <;> simp [h, yearEntries]

lemma foldl_add_shift {α : Type} (f : α → ℚ) (l : List α) (c : ℚ) :
    l.foldl (fun a p => a + f p) c = c + l.foldl (fun a p => a + f p) 0 := by
  induction l generalizing c with
  | nil => simp
  | cons p l ih =>
    simp only [List.foldl_cons]
    rw [ih (c + f p), ih (0 + f p)]
    ring

lemma spendSum_cons (p : String × Entry) (l : Log) :
    spendSum (p :: l) =
      if soberGet p.2 then spendSum l else effectiveSpend p.2 + spendSum l := by
  cases h : soberGet p.2 with
  | true => simp [spendSum, List.filter_cons, h]
  | false =>
    have hf : List.filter (fun q => !soberGet q.2) (p :: l) =
        p :: List.filter (fun q => !soberGet q.2) l := by
      simp [List.filter_cons, h]
    simp only [Bool.false_eq_true, if_false]
    rw [spendSum, hf, List.foldl_cons, foldl_add_shift]
    rw [spendSum]
    ring

lemma foldl_mUpd_some (l : Log) (s : MStat) :
    l.foldl mUpd (some s) =
      some ⟨s.sober_days + l.countP (fun p => soberGet p.2),
            s.total_days + l.length,
            s.spent + spendSum l⟩ := by
  induction l generalizing s with
  | nil => simp [spendSum]
  | cons p l ih =>
    simp only [List.foldl_cons]
    cases h : soberGet p.2 with
    | true =>
      rw [show mUpd (some s) p = some ⟨s.sober_days + 1, s.total_days + 1, s.spent⟩ by
        simp [mUpd, h]]
      rw [ih, spendSum_cons, h, if_pos rfl]
      simp only [Option.some.injEq, MStat.mk.injEq, List.countP_cons, h, List.length_cons]
      refine ⟨by simp; omega, by omega, trivial⟩
    | false =>
      rw [show mUpd (some s) p = some ⟨s.sober_days, s.total_days + 1,
            s.spent + effectiveSpend p.2⟩ by simp [mUpd, h]]
      rw [ih, spendSum_cons, h, if_neg (by simp)]
      simp only [Option.some.injEq, MStat.mk.injEq, List.countP_cons, h, List.length_cons]
      refine ⟨by simp, by omega, by ring⟩

lemma foldl_mUpd_none (l : Log) (hl : l ≠ []) :
    l.foldl mUpd none =
      some ⟨l.countP (fun p => soberGet p.2), l.length, spendSum l⟩ := by
  match l with
  | [] => exact absurd rfl hl
  | p :: l =>
    rw [List.foldl_cons]
    cases h : soberGet p.2 with
    | true =>
      rw [show mUpd none p = some ⟨1, 1, 0⟩ by simp [mUpd, h]]
      rw [foldl_mUpd_some, spendSum_cons, h, if_pos rfl]
      simp only [Option.some.injEq, MStat.mk.injEq, List.countP_cons, h, List.length_cons]
      refine ⟨by simp; omega, by omega, by simp⟩
    | false =>
      rw [show mUpd none p = some ⟨0, 1, 0 + effectiveSpend p.2⟩ by simp [mUpd, h]]
      rw [foldl_mUpd_some, spendSum_cons, h, if_neg (by simp)]
      simp only [Option.some.injEq, MStat.mk.injEq, List.countP_cons, h, List.length_cons]
      refine ⟨by simp, by omega, by ring⟩

lemma foldl_yUpd_some (l : Log) (s : YStat) :
    l.foldl yUpd (some s) =
      some ⟨s.sober_days + l.countP (fun p => soberGet p.2), s.total_days + l.length⟩ := by
  induction l generalizing s with
  | nil => simp
  | cons p l ih =>
    simp only [List.foldl_cons]
    cases h : soberGet p.2 with
    | true =>
      rw [show yUpd (some s) p = some ⟨s.sober_days + 1, s.total_days + 1⟩ by
        simp [yUpd, h]]
      rw [ih]
      simp only [Option.some.injEq, YStat.mk.injEq, List.countP_cons, h, List.length_cons]
      refine ⟨by simp; omega, by omega⟩
    | false =>
      rw [show yUpd (some s) p = some ⟨s.sober_days, s.total_days + 1⟩ by simp [yUpd, h]]
      rw [ih]
      simp only [Option.some.injEq, YStat.mk.injEq, List.countP_cons, h, List.length_cons]
      refine ⟨by simp, by omega⟩

lemma foldl_yUpd_none (l : Log) (hl : l ≠ []) :
    l.foldl yUpd none = some ⟨l.countP (fun p => soberGet p.2), l.length⟩ := by
  match l with
  | [] => exact absurd rfl hl
  | p :: l =>
    rw [List.foldl_cons]
    cases h : soberGet p.2 with
    | true =>
      rw [show yUpd none p = some ⟨1, 1⟩ by simp [yUpd, h]]
      rw [foldl_yUpd_some]
      simp only [Option.some.injEq, YStat.mk.injEq, List.countP_cons, h, List.length_cons]
      refine ⟨by simp; omega, by omega⟩
    | false =>
      rw [show yUpd none p = some ⟨0, 1⟩ by simp [yUpd, h]]
      rw [foldl_yUpd_some]
      simp only [Option.some.injEq, YStat.mk.injEq, List.countP_cons, h, List.length_cons]
      refine ⟨by simp, by omega⟩

/-- Closed form of the monthly dictionary: a bucket exists iff some
validly-dated entry falls in its period, and then it carries the counts
and the effective-spend sum of exactly those entries. -/
lemma get_statistics_monthly (log : Log) (k : Nat × Nat) :
    (get_statistics log).monthly k =
      if monthEntries log k = [] then none
      else some ⟨(monthEntries log k).countP (fun p => soberGet p.2),
                 (monthEntries log k).length, spendSum (monthEntries log k)⟩ := by
  rw [get_statistics, foldl_statStep_monthly]
  by_cases h : monthEntries log k = []
  · rw [if_pos h, h]; rfl
  · rw [if_neg h]
    exact foldl_mUpd_none _ h

/-- Closed form of the yearly dictionary. -/
lemma get_statistics_yearly (log : Log) (y : Nat) :
    (get_statistics log).yearly y =
      if yearEntries log y = [] then none
      else some ⟨(yearEntries log y).countP (fun p => soberGet p.2),
                 (yearEntries log y).length⟩ := by
  rw [get_statistics, foldl_statStep_yearly]
  by_cases h : yearEntries log y = []
  · rw [if_pos h, h]; rfl
  · rw [if_neg h]
    exact foldl_yUpd_none _ h

/-! ## The ascending streak walk versus the claim's description -/

lemma streakStep_eq_spec (st : StreakSt) (p : String × Entry) (d : Date)
    (hp : parseDate p.1 = some d) : streakStep st p = specStreakStep st (d, p.2) := by
  rw [streakStep, hp]
  cases hs : soberGet p.2 with
  | false => simp [specStreakStep, hs]
  | true =>
    cases hprev : st.prev with
    | none => simp [specStreakStep, hs, hprev]
    | some pd =>
      have hiff : ((ordinal d : ℤ) - (ordinal pd : ℤ) = 1) ↔ (ordinal pd + 1 = ordinal d) := by
        omega
      simp only [specStreakStep, hs, hprev, if_pos rfl, if_congr hiff rfl rfl]
      simp

lemma foldl_streakStep_eq_spec (l : Log) (st : StreakSt) :
    l.foldl streakStep st = (datedEntries l).foldl specStreakStep st := by
  induction l generalizing st with
  | nil => rfl
  | cons p l ih =>
    rcases hp : parseDate p.1 with _ | d
    · have h1 : streakStep st p = st := by rw [streakStep, hp]
      have hv : validKey p = false := by simp [validKey, hp]
      simp [datedEntries, List.filter_cons, hv, h1, ih,
        show streakStep st p = st from h1]
    · have hv : validKey p = true := by simp [validKey, hp]
      simp only [List.foldl_cons, datedEntries, List.filter_cons, hv, if_pos,
        List.map_cons, streakStep_eq_spec st p d hp, hp, Option.getD_some]
      exact ih _

/-- The ascending walk never looks at entries with unparsable keys:
filtering them away first gives the same final state. -/
lemma foldl_streakStep_filter (l : Log) (st : StreakSt) :
    l.foldl streakStep st = (l.filter validKey).foldl streakStep st := by
  rw [foldl_streakStep_eq_spec, foldl_streakStep_eq_spec]
  unfold datedEntries
  rw [List.filter_filter]
  simp

lemma sortedLog_sorted (log : Log) :
    List.Sorted (fun a b : String × Entry => a.1 ≤ b.1) (sortedLog log) :=
  List.sorted_insertionSort _ _

lemma sortedLog_perm (log : Log) : (sortedLog log).Perm log :=
  List.perm_insertionSort _ _

lemma sortedLog_length (log : Log) : (sortedLog log).length = log.length :=
  (sortedLog_perm log).length_eq

/-! ## String order on canonical date keys is chronological order -/

lemma parseDate_inv {s : String} {dt : Date} (h : parseDate s = some dt) :
    ∃ y1 y2 y3 y4 m1 m2 d1 d2 : Char,
      s.data = [y1, y2, y3, y4, '-', m1, m2, '-', d1, d2] ∧
      y1.isDigit ∧ y2.isDigit ∧ y3.isDigit ∧ y4.isDigit ∧
      m1.isDigit ∧ m2.isDigit ∧ d1.isDigit ∧ d2.isDigit ∧
      dt.year = 1000 * digitVal y1 + 100 * digitVal y2 + 10 * digitVal y3 + digitVal y4 ∧
      dt.month = 10 * digitVal m1 + digitVal m2 ∧
      dt.day = 10 * digitVal d1 + digitVal d2 := by
  unfold parseDate at h
  split at h
  case h_2 => exact absurd h (by simp)
  case h_1 y1 y2 y3 y4 h1 m1 m2 h2 d1 d2 heq =>
    dsimp only at h
    split at h
    case isFalse => exact absurd h (by simp)
    case isTrue hc =>
      split at h
      case isFalse => exact absurd h (by simp)
      case isTrue hr =>
        obtain ⟨hh1, hh2, hy1, hy2, hy3, hy4, hm1, hm2, hd1, hd2⟩ := hc
        subst hh1; subst hh2
        refine ⟨y1, y2, y3, y4, m1, m2, d1, d2, heq, hy1, hy2, hy3, hy4, hm1, hm2, hd1, hd2,
          ?_, ?_, ?_⟩ <;>
          (cases h; rfl)

lemma isDigit_bounds {c : Char} (h : c.isDigit = true) : 48 ≤ c.toNat ∧ c.toNat ≤ 57 := by
  simp [Char.isDigit] at h
  exact ⟨h.1, h.2⟩

lemma digitVal_le_nine {c : Char} (h : c.isDigit = true) : digitVal c ≤ 9 := by
  have := isDigit_bounds h
  unfold digitVal
  omega

lemma digit_lt_iff {c d : Char} (hc : c.isDigit = true) (hd : d.isDigit = true) :
    c < d ↔ digitVal c < digitVal d := by
  have hcb := isDigit_bounds hc
  have hdb := isDigit_bounds hd
  constructor
  · intro h
    have h' : c.toNat < d.toNat := h
    unfold digitVal
    omega
  · intro h
    unfold digitVal at h
    show c.toNat < d.toNat
    omega

lemma digit_eq_of_val_eq {c d : Char} (hc : c.isDigit = true) (hd : d.isDigit = true)
    (h : digitVal c = digitVal d) : c = d := by
  have hcb := isDigit_bounds hc
  have hdb := isDigit_bounds hd
  have h' : c.toNat = d.toNat := by unfold digitVal at h; omega
  exact Char.ext (UInt32.ext h')

lemma string_lt_of_dateLT {s t : String} {a b : Date}
    (hs : parseDate s = some a) (ht : parseDate t = some b)
    (hlt : b.year < a.year ∨ (b.year = a.year ∧ (b.month < a.month ∨
      (b.month = a.month ∧ b.day < a.day)))) :
    t < s := by
  obtain ⟨x1, x2, x3, x4, x5, x6, x7, x8, hxdata, hx1, hx2, hx3, hx4, hx5, hx6, hx7, hx8,
    hya, hma, hda⟩ := parseDate_inv hs
  obtain ⟨z1, z2, z3, z4, z5, z6, z7, z8, hzdata, hz1, hz2, hz3, hz4, hz5, hz6, hz7, hz8,
    hyb, hmb, hdb⟩ := parseDate_inv ht
  rw [String.lt_iff_toList_lt]
  show t.data < s.data
  rw [hxdata, hzdata]
  show List.Lex (· < ·) _ _
  have key : digitVal z1 < digitVal x1 ∨ (digitVal z1 = digitVal x1 ∧
      (digitVal z2 < digitVal x2 ∨ (digitVal z2 = digitVal x2 ∧
      (digitVal z3 < digitVal x3 ∨ (digitVal z3 = digitVal x3 ∧
      (digitVal z4 < digitVal x4 ∨ (digitVal z4 = digitVal x4 ∧
      (digitVal z5 < digitVal x5 ∨ (digitVal z5 = digitVal x5 ∧
      (digitVal z6 < digitVal x6 ∨ (digitVal z6 = digitVal x6 ∧
      (digitVal z7 < digitVal x7 ∨ (digitVal z7 = digitVal x7 ∧
        digitVal z8 < digitVal x8))))))))))))) := by
    have bx1 := digitVal_le_nine hx1
    have bx2 := digitVal_le_nine hx2
    have bx3 := digitVal_le_nine hx3
    have bx4 := digitVal_le_nine hx4
    have bx5 := digitVal_le_nine hx5
    have bx6 := digitVal_le_nine hx6
    have bx7 := digitVal_le_nine hx7
    have bx8 := digitVal_le_nine hx8
    have bz1 := digitVal_le_nine hz1
    have bz2 := digitVal_le_nine hz2
    have bz3 := digitVal_le_nine hz3
    have bz4 := digitVal_le_nine hz4
    have bz5 := digitVal_le_nine hz5
    have bz6 := digitVal_le_nine hz6
    have bz7 := digitVal_le_nine hz7
    have bz8 := digitVal_le_nine hz8
    omega
  rcases key with h | ⟨e, key⟩
  · exact List.Lex.rel ((digit_lt_iff hz1 hx1).mpr h)
  obtain rfl : z1 = x1 := digit_eq_of_val_eq hz1 hx1 e
  apply List.Lex.cons
  rcases key with h | ⟨e, key⟩
  · exact List.Lex.rel ((digit_lt_iff hz2 hx2).mpr h)
  obtain rfl : z2 = x2 := digit_eq_of_val_eq hz2 hx2 e
  apply List.Lex.cons
  rcases key with h | ⟨e, key⟩
  · exact List.Lex.rel ((digit_lt_iff hz3 hx3).mpr h)
  obtain rfl : z3 = x3 := digit_eq_of_val_eq hz3 hx3 e
  apply List.Lex.cons
  rcases key with h | ⟨e, key⟩
  · exact List.Lex.rel ((digit_lt_iff hz4 hx4).mpr h)
  obtain rfl : z4 = x4 := digit_eq_of_val_eq hz4 hx4 e
  apply List.Lex.cons
  apply List.Lex.cons
  rcases key with h | ⟨e, key⟩
  · exact List.Lex.rel ((digit_lt_iff hz5 hx5).mpr h)
  obtain rfl : z5 = x5 := digit_eq_of_val_eq hz5 hx5 e
  apply List.Lex.cons
  rcases key with h | ⟨e, key⟩
  · exact List.Lex.rel ((digit_lt_iff hz6 hx6).mpr h)
  obtain rfl : z6 = x6 := digit_eq_of_val_eq hz6 hx6 e
  apply List.Lex.cons
  apply List.Lex.cons
  rcases key with h | ⟨e, key⟩
  · exact List.Lex.rel ((digit_lt_iff hz7 hx7).mpr h)
  obtain rfl : z7 = x7 := digit_eq_of_val_eq hz7 hx7 e
  apply List.Lex.cons
  exact List.Lex.rel ((digit_lt_iff hz8 hx8).mpr key)

/-- Python's string sort on canonical `YYYY-MM-DD` keys is
chronological: if two keys parse and `s ≤ t` as strings, the parsed
dates are in (lexicographic) calendar order. -/
lemma parse_mono {s t : String} {a b : Date} (hs : parseDate s = some a)
    (ht : parseDate t = some b) (h : s ≤ t) : dateLE a b := by
  by_contra hc
  have hlt : b.year < a.year ∨ (b.year = a.year ∧ (b.month < a.month ∨
      (b.month = a.month ∧ b.day < a.day))) := by
    unfold dateLE at hc
    omega
  exact not_lt.mpr h (string_lt_of_dateLT hs ht hlt)

/-- The dated entries of the string-sorted log are in ascending
calendar-date order. -/
lemma datedEntries_sorted (log : Log) :
    List.Sorted (fun p q : Date × Entry => dateLE p.1 q.1)
      (datedEntries (sortedLog log)) := by
  have hs := sortedLog_sorted log
  have hf : List.Pairwise (fun a b : String × Entry => a.1 ≤ b.1)
      ((sortedLog log).filter validKey) := List.Pairwise.filter _ hs
  unfold datedEntries List.Sorted
  rw [List.pairwise_map]
  refine List.Pairwise.imp_of_mem ?_ hf
  intro p q hp hq hpq
  have hvp : validKey p = true := (List.mem_filter.mp hp).2
  have hvq : validKey q = true := (List.mem_filter.mp hq).2
  obtain ⟨dp, hdp⟩ := Option.isSome_iff_exists.mp hvp
  obtain ⟨dq, hdq⟩ := Option.isSome_iff_exists.mp hvq
  simp only [hdp, hdq, Option.getD_some]
  exact parse_mono hdp hdq hpq

/-! ## The backwards loop counts a trailing run -/

lemma takeWhile_reverse_decomp {α : Type} (p : α → Bool) (l : List α) :
    ∃ pre suf : List α, l = pre ++ suf ∧ (∀ x ∈ suf, p x = true) ∧
      (l.reverse.takeWhile p).length = suf.length ∧
      (pre = [] ∨ ∃ q pre', pre = pre' ++ [q] ∧ p q = false) := by
  induction l using List.reverseRecOn with
  | nil => exact ⟨[], [], by simp, by simp, by simp, Or.inl rfl⟩
  | append_singleton l x ih =>
    obtain ⟨pre, suf, hdec, hall, hlen, hpre⟩ := ih
    cases hx : p x with
    | true =>
      refine ⟨pre, suf ++ [x], by rw [hdec, List.append_assoc], ?_, ?_, hpre⟩
      · intro y hy
        rcases List.mem_append.mp hy with h | h
        · exact hall y h
        · rw [List.mem_singleton.mp h]; exact hx
      · simp [List.takeWhile_cons, hx, hlen]
    | false =>
      refine ⟨l ++ [x], [], by simp, by simp, ?_, Or.inr ⟨x, l, rfl, hx⟩⟩
      simp [List.takeWhile_cons, hx]

/-! ## The calendar view's spend agrees with the engine's period spend -/

lemma uiEffectiveSpend_eq (e : Entry) : uiEffectiveSpend e = effectiveSpend e := by
  unfold uiEffectiveSpend effectiveSpend floatSpent DEFAULT_AMOUNT
  rcases e.amount_spent with _ | v
  · rfl
  · cases v <;> rfl

lemma calStep_spent (y m : Nat) (st : CalStats) (p : String × Entry) :
    (calStep y m st p).spent = spendStep y m st.spent p := by
  rw [calStep, spendStep]
  rcases hp : parseDate p.1 with _ | d
  · rfl
  · by_cases hin : d.year = y ∧ d.month = m
    · cases hs : soberGet p.2 with
      | true => simp [hin, hs]
      | false => simp [hin, hs, uiEffectiveSpend_eq]
    · cases hs : soberGet p.2 with
      | true => simp [hin, hs]
      | false => simp [hin, hs]

lemma display_spent_eq_aux (y m : Nat) (l : Log) (st : CalStats) :
    (l.foldl (calStep y m) st).spent = l.foldl (spendStep y m) st.spent := by
  induction l generalizing st with
  | nil => rfl
  | cons p l ih => rw [List.foldl_cons, List.foldl_cons, ih, calStep_spent]

/-- The calendar view's period spend is exactly the engine's
current-period spending at the caller-supplied year and month. -/
lemma display_spent_eq (log : Log) (y m : Nat) :
    (display_calendar_stats log y m).spent = currentMonthSpendingAt log y m := by
  rw [display_calendar_stats, currentMonthSpendingAt, display_spent_eq_aux]

/-! ## Conditional agreement of the report's spending sum -/

/-- The report's per-term computation agrees with the effective-spend
rule exactly on entries with an explicit `sober: false` and an amount
that is absent or converts to a nonnegative number. -/
lemma reportSpendTerm_eq (e : Entry) (hsb : e.sober = some false)
    (ham : e.amount_spent = none ∨ ∃ q : ℚ, e.amount_spent = some (.num q) ∧ 0 ≤ q) :
    reportSpendTerm e = .ok (effectiveSpend e) := by
  rcases ham with h | ⟨q, h, hq⟩
  · rw [reportSpendTerm, hsb]
    simp only [Option.getD_some]
    rw [show floatSpent e = .ok DEFAULT_AMOUNT by rw [floatSpent, h]]
    rw [show effectiveSpend e = DEFAULT_AMOUNT by
      rw [effectiveSpend, floatSpent, h]
      norm_num [DEFAULT_AMOUNT]]
    norm_num [DEFAULT_AMOUNT]
  · rw [reportSpendTerm, hsb]
    simp only [Option.getD_some]
    rw [show floatSpent e = .ok q by rw [floatSpent, h]]
    rw [show effectiveSpend e = if q = 0 then DEFAULT_AMOUNT else q by
      rw [effectiveSpend, floatSpent, h]]
    by_cases h0 : q = 0
    · simp [h0]
    · have : 0 < q := lt_of_le_of_ne hq (Ne.symm h0)
      simp [h0, this]

lemma report_overall_eq_aux (l : Log)
    (hcond : ∀ p ∈ l, soberGet p.2 = false →
      (parseDate p.1).isSome = true ∧ p.2.sober = some false ∧
      (p.2.amount_spent = none ∨ ∃ q : ℚ, p.2.amount_spent = some (.num q) ∧ 0 ≤ q))
    (a : ℚ) :
    (l.filter (fun p => !soberGet p.2)).foldl reportTermStep (.ok a) =
      .ok (l.foldl overallStep a) := by
  induction l generalizing a with
  | nil => rfl
  | cons p l ih =>
    have ihl := fun a => ih (fun q hq => hcond q (List.mem_cons_of_mem p hq)) a
    cases hs : soberGet p.2 with
    | true =>
      have hstep : overallStep a p = a := by
        rw [overallStep]
        rcases hp : parseDate p.1 with _ | d
        · rfl
        · simp [hs]
      simp only [List.filter_cons, hs, Bool.not_true, List.foldl_cons, hstep]
      exact ihl a
    | false =>
      obtain ⟨hval, hsb, ham⟩ := hcond p (List.mem_cons_self p l) hs
      obtain ⟨d, hd⟩ := Option.isSome_iff_exists.mp hval
      have hstep : overallStep a p = a + effectiveSpend p.2 := by
        rw [overallStep, hd]
        simp [hs]
      have hterm : reportTermStep (.ok a) p = .ok (a + effectiveSpend p.2) := by
        rw [reportTermStep, reportSpendTerm_eq p.2 hsb ham]
      simp only [List.filter_cons, hs, Bool.not_false, List.foldl_cons, if_pos, hstep, hterm]
      exact ihl _

/-! ## Remaining shared lemmas -/

lemma countP_not_add {α : Type} (p : α → Bool) (l : List α) :
    l.countP p + l.countP (fun a => !p a) = l.length := by
  induction l with
  | nil => rfl
  | cons x l ih =>
    cases h : p x <;> simp [List.countP_cons, h] <;> omega

lemma bucketPercent_bounds {s t : Nat} (h : s ≤ t) :
    0 ≤ bucketPercent s t ∧ bucketPercent s t ≤ 100 := by
  unfold bucketPercent
  by_cases ht : t = 0
  · simp [ht]
  · rw [if_pos ht]
    have ht' : (0 : ℚ) < t := by
      have := Nat.pos_of_ne_zero ht
      exact_mod_cast this
    constructor
    · positivity
    · rw [div_mul_eq_mul_div, div_le_iff₀ ht']
      have hc : (s : ℚ) ≤ t := by exact_mod_cast h
      nlinarith

lemma additional_percent_eq (log : Log) :
    (get_additional_stats log).percent_sober =
      bucketPercent (log.countP (fun p => soberGet p.2)) ((sortedLog log).length) := rfl

lemma report_percent_eq (log : Log) :
    report_percent_sober log = bucketPercent (report_sober_days log) log.length := by
  unfold report_percent_sober bucketPercent
  by_cases h : log.length = 0
  · simp [h]
  · rw [if_pos (Nat.pos_of_ne_zero h), if_pos h]

lemma effectiveSpend_bad {e : Entry} (h : e.amount_spent = some .bad) :
    effectiveSpend e = DEFAULT_AMOUNT := by
  unfold effectiveSpend floatSpent
  rw [h]
  simp

lemma effectiveSpend_absent {e : Entry} (h : e.amount_spent = none) :
    effectiveSpend e = DEFAULT_AMOUNT := by
  unfold effectiveSpend floatSpent
  rw [h]
  simp

lemma effectiveSpend_zero {e : Entry} (h : e.amount_spent = some (.num 0)) :
    effectiveSpend e = DEFAULT_AMOUNT := by
  unfold effectiveSpend floatSpent
  rw [h]
  simp

lemma effectiveSpend_num {e : Entry} {q : ℚ} (hq : q ≠ 0)
    (h : e.amount_spent = some (.num q)) : effectiveSpend e = q := by
  unfold effectiveSpend floatSpent
  rw [h]
  simp [hq]

/-! ## Claims -/

/-- C1 (corrected), counterexample: the log `{"not-a-date": {"sober": true}}`
has an unparsable date key, yet `get_additional_stats` reports
`total_days = 1`, `percent_sober = 100` and `current_streak = 1`; had the
entry been "absent from every aggregate" these would all be `0`.  Only the
longest-streak walk skips it. -/
theorem C1_counterexample :
    parseDate "not-a-date" = none ∧
    (get_additional_stats [("not-a-date", ⟨some true, none⟩)]).total_days = 1 ∧
    (get_additional_stats [("not-a-date", ⟨some true, none⟩)]).percent_sober = 100 ∧
    (get_additional_stats [("not-a-date", ⟨some true, none⟩)]).longest_streak = 0 ∧
    (get_additional_stats [("not-a-date", ⟨some true, none⟩)]).current_streak = 1 := by
  refine ⟨rfl, rfl, ?_, rfl, rfl⟩
  show ((1 : Nat) : ℚ) / ((1 : Nat) : ℚ) * 100 = 100
  norm_num

/-- C1 (corrected), amended claim: an entry with an unparsable date key is
excluded from every monthly and yearly bucket (the `get_statistics` step
ignores it) and from the ascending longest-streak walk (filtering such
entries away leaves the walk unchanged), and no exception is raised; but
it does count in `total_days` and in the sober proportion of
`percent_sober` of the additional statistics, and it takes part in the
backwards current-streak loop like any other entry. -/
theorem C1_invalid_dates (log : Log) :
    (∀ (st : Stats) (p : String × Entry), parseDate p.1 = none → statStep st p = st) ∧
    (∀ (l : Log) (st : StreakSt),
      l.foldl streakStep st = (l.filter validKey).foldl streakStep st) ∧
    (get_additional_stats log).total_days = log.length ∧
    (get_additional_stats log).percent_sober =
      bucketPercent (log.countP (fun p => soberGet p.2)) log.length := by
  refine ⟨?_, ?_, ?_, ?_⟩
  · intro st p hp
    rw [statStep, hp]
  · exact foldl_streakStep_filter
  · exact sortedLog_length log
  · rw [additional_percent_eq, sortedLog_length]

theorem C1_invalid_dates_witness :
    statStep ⟨fun _ => none, fun _ => none⟩ ("not-a-date", ⟨some true, none⟩) =
      ⟨fun _ => none, fun _ => none⟩ ∧
    (get_additional_stats [("not-a-date", ⟨some true, none⟩)]).total_days =
      [(("not-a-date" : String), (⟨some true, none⟩ : Entry))].length :=
  ⟨(C1_invalid_dates []).1 _ _ rfl,
   (C1_invalid_dates [("not-a-date", ⟨some true, none⟩)]).2.2.1⟩

/-- C2 (confirmed): for an entry with an explicit `sober = false`, the
effective spend is the default when `amount_spent` is unconvertible or
exactly 0 and is `X` itself when it converts to `X > 0`; and that
effective spend is what each engine spend aggregate (overall total,
current-period total, monthly bucket, calendar period) accumulates for
the entry. -/
theorem C2_effective_spend (e : Entry) (s : String) (d : Date)
    (hsb : e.sober = some false) (hd : parseDate s = some d) :
    ((e.amount_spent = some .bad ∨ e.amount_spent = some (.num 0)) →
      effectiveSpend e = DEFAULT_AMOUNT) ∧
    (∀ q : ℚ, 0 < q → e.amount_spent = some (.num q) → effectiveSpend e = q) ∧
    overall_spending [(s, e)] = effectiveSpend e ∧
    currentMonthSpendingAt [(s, e)] d.year d.month = effectiveSpend e ∧
    (get_statistics [(s, e)]).monthly (d.year, d.month) = some ⟨0, 1, effectiveSpend e⟩ ∧
    (display_calendar_stats [(s, e)] d.year d.month).spent = effectiveSpend e := by
  have hsg : soberGet e = false := by rw [soberGet, hsb]; rfl
  have hcur : currentMonthSpendingAt [(s, e)] d.year d.month = effectiveSpend e := by
    simp [currentMonthSpendingAt, spendStep, hd, hsg]
  refine ⟨?_, ?_, ?_, hcur, ?_, ?_⟩
  · rintro (h | h)
    · exact effectiveSpend_bad h
    · exact effectiveSpend_zero h
  · intro q hq h
    exact effectiveSpend_num (ne_of_gt hq) h
  · simp [overall_spending, overallStep, hd, hsg]
  · simp [get_statistics, statStep, hd, hsg]
  · rw [display_spent_eq]
    exact hcur

theorem C2_effective_spend_witness :
    effectiveSpend ⟨some false, some .bad⟩ = DEFAULT_AMOUNT ∧
    overall_spending [("2024-01-05", ⟨some false, some .bad⟩)] =
      effectiveSpend ⟨some false, some .bad⟩ := by
  have h := C2_effective_spend ⟨some false, some .bad⟩ "2024-01-05" ⟨2024, 1, 5⟩ rfl rfl
  exact ⟨h.1 (Or.inl rfl), h.2.2.1⟩

/-- C3 (confirmed): the longest-streak figure equals the specification's
recursion run over the validly-dated entries (a sober entry extends the
run by 1 exactly when the previously examined date is one calendar day
earlier, any other sober entry restarts at 1, a non-sober entry resets
to 0, the result is the running maximum), and those entries are walked
in ascending calendar-date order. -/
theorem C3_longest_streak (log : Log) :
    (get_additional_stats log).longest_streak =
      claimLongestStreak (datedEntries (sortedLog log)) ∧
    List.Sorted (fun p q : Date × Entry => dateLE p.1 q.1)
      (datedEntries (sortedLog log)) :=
  ⟨by rw [show (get_additional_stats log).longest_streak = longestStreakOf log from rfl,
        longestStreakOf, foldl_streakStep_eq_spec]; rfl,
   datedEntries_sorted log⟩

/-- C4 (confirmed): the current-streak figure counts exactly the trailing
run of sober entries of the string-sorted log: the log splits into a
prefix and a suffix of all-sober entries whose length is the reported
current streak, and the prefix is empty or ends with a non-sober entry.
No calendar-contiguity condition is involved. -/
theorem C4_current_streak (log : Log) :
    ∃ pre suf : Log, sortedLog log = pre ++ suf ∧
      (∀ p ∈ suf, soberGet p.2 = true) ∧
      (get_additional_stats log).current_streak = suf.length ∧
      (pre = [] ∨ ∃ q pre', pre = pre' ++ [q] ∧ soberGet q.2 = false) := by
  obtain ⟨pre, suf, h1, h2, h3, h4⟩ :=
    takeWhile_reverse_decomp (fun p => soberGet p.2) (sortedLog log)
  exact ⟨pre, suf, h1, h2, h3, h4⟩

/-- C5 (code_bug), evaluation at the failing input: on the log
`{"2024-01-01": drinking with unconvertible amount, "2024-01-02":
drinking 15.0}`, the tracker's overall total substitutes the default
(40 + 15 = 55), but the report summary's sum raises on the first entry
and aborts (the outer `try/except` of `generate` then discards the whole
report), instead of substituting the default as the spec requires. -/
theorem C5_report_spend_raises :
    report_overall_spending
      [("2024-01-01", ⟨some false, some .bad⟩),
       ("2024-01-02", ⟨some false, some (.num 15)⟩)] = .error () ∧
    overall_spending
      [("2024-01-01", ⟨some false, some .bad⟩),
       ("2024-01-02", ⟨some false, some (.num 15)⟩)] = 55 := by
  refine ⟨rfl, ?_⟩
  show (0 : ℚ) + DEFAULT_AMOUNT + 15 = 55
  norm_num [DEFAULT_AMOUNT]

/-- C6 (corrected), counterexample: `print_statistics` reads the clock
itself; with the same log and no caller-supplied reference period, a run
while the clock reads January 2024 and a run while it reads February
2024 return different current-month spending totals. -/
theorem C6_counterexample :
    printStatsCurrentMonthSpending [("2024-01-05", ⟨some false, none⟩)] ⟨2024, 1, 15⟩ ≠
      printStatsCurrentMonthSpending [("2024-01-05", ⟨some false, none⟩)] ⟨2024, 2, 15⟩ := by
  show (0 : ℚ) + DEFAULT_AMOUNT ≠ 0
  norm_num [DEFAULT_AMOUNT]

/-- C6 (corrected), amended claim: the calendar view does take the
reference year and month from its caller, and its period spend is the
engine's current-period total, a function of the log and that pair
only; `print_statistics`, by contrast, applies the same period function
to the year and month of the clock value it reads internally, so its
result varies with the wall-clock time. -/
theorem C6_reference_period (log : Log) (y m : Nat) (now : Date) :
    (display_calendar_stats log y m).spent = currentMonthSpendingAt log y m ∧
    printStatsCurrentMonthSpending log now = currentMonthSpendingAt log now.year now.month :=
  ⟨display_spent_eq log y m, rfl⟩

/-- C7 (confirmed): a monthly or yearly bucket exists exactly when some
validly-dated entry falls in its period, and an existing bucket carries
`sober_days` = number of sober entries, `total_days` = number of all
validly-dated entries of the period — hence
`sober_days + valid non-sober entries = total_days`,
`sober_days ≤ total_days`, and `total_days ≥ 1`; no zero-filled bucket
is ever produced. -/
theorem C7_bucket_invariants (log : Log) (k : Nat × Nat) (y : Nat) :
    ((get_statistics log).monthly k =
      if monthEntries log k = [] then none
      else some ⟨(monthEntries log k).countP (fun p => soberGet p.2),
                 (monthEntries log k).length, spendSum (monthEntries log k)⟩) ∧
    ((get_statistics log).yearly y =
      if yearEntries log y = [] then none
      else some ⟨(yearEntries log y).countP (fun p => soberGet p.2),
                 (yearEntries log y).length⟩) ∧
    (∀ s : MStat, (get_statistics log).monthly k = some s →
      s.sober_days + (monthEntries log k).countP (fun p => !soberGet p.2) = s.total_days ∧
      s.sober_days ≤ s.total_days ∧ 1 ≤ s.total_days) ∧
    (∀ s : YStat, (get_statistics log).yearly y = some s →
      s.sober_days + (yearEntries log y).countP (fun p => !soberGet p.2) = s.total_days ∧
      s.sober_days ≤ s.total_days ∧ 1 ≤ s.total_days) := by
  refine ⟨get_statistics_monthly log k, get_statistics_yearly log y, ?_, ?_⟩
  · intro s hs
    rw [get_statistics_monthly] at hs
    by_cases h : monthEntries log k = []
    · rw [if_pos h] at hs
      cases hs
    · rw [if_neg h] at hs
      obtain rfl := (Option.some_inj.mp hs).symm
      refine ⟨countP_not_add _ _, List.countP_le_length _, ?_⟩
      exact List.length_pos.mpr h
  · intro s hs
    rw [get_statistics_yearly] at hs
    by_cases h : yearEntries log y = []
    · rw [if_pos h] at hs
      cases hs
    · rw [if_neg h] at hs
      obtain rfl := (Option.some_inj.mp hs).symm
      refine ⟨countP_not_add _ _, List.countP_le_length _, ?_⟩
      exact List.length_pos.mpr h

theorem C7_bucket_invariants_witness :
    (1 : Nat) +
      (monthEntries [("2024-01-01", ⟨some true, none⟩), ("2024-01-02", ⟨some false, none⟩)]
        (2024, 1)).countP (fun p => !soberGet p.2) = 2 ∧
    (1 : Nat) ≤ 2 := by
  have h := (C7_bucket_invariants
      [("2024-01-01", ⟨some true, none⟩), ("2024-01-02", ⟨some false, none⟩)]
      (2024, 1) 2024).2.2.1 ⟨1, 2, 0 + DEFAULT_AMOUNT⟩ rfl
  exact ⟨h.1, h.2.1⟩

/-- C8 (confirmed): every percent-sober figure is the guarded
`sober/total*100` formula, equal to 0 on an empty denominator, and lies
in [0, 100]: this holds for the additional statistics, for the printed
percentage of every existing monthly and yearly bucket (whose
`total_days` is never 0), and for the report summary's percentage. -/
theorem C8_percent_guarded (log : Log) (k : Nat × Nat) (y : Nat) :
    (0 ≤ (get_additional_stats log).percent_sober ∧
      (get_additional_stats log).percent_sober ≤ 100) ∧
    ((get_additional_stats log).total_days = 0 →
      (get_additional_stats log).percent_sober = 0) ∧
    (∀ s : MStat, (get_statistics log).monthly k = some s →
      s.total_days ≠ 0 ∧ 0 ≤ bucketPercent s.sober_days s.total_days ∧
        bucketPercent s.sober_days s.total_days ≤ 100) ∧
    (∀ s : YStat, (get_statistics log).yearly y = some s →
      s.total_days ≠ 0 ∧ 0 ≤ bucketPercent s.sober_days s.total_days ∧
        bucketPercent s.sober_days s.total_days ≤ 100) ∧
    (0 ≤ report_percent_sober log ∧ report_percent_sober log ≤ 100) ∧
    (report_total_days log = 0 → report_percent_sober log = 0) := by
  refine ⟨?_, ?_, ?_, ?_, ?_, ?_⟩
  · rw [additional_percent_eq]
    refine bucketPercent_bounds ?_
    rw [sortedLog_length]
    exact List.countP_le_length _
  · intro h
    have h0 : (sortedLog log).length = 0 := h
    rw [additional_percent_eq, bucketPercent, if_neg (fun hn => hn h0)]
  · intro s hs
    rw [get_statistics_monthly] at hs
    by_cases h : monthEntries log k = []
    · rw [if_pos h] at hs
      cases hs
    · rw [if_neg h] at hs
      obtain rfl := (Option.some_inj.mp hs).symm
      exact ⟨Nat.pos_iff_ne_zero.mp (List.length_pos.mpr h),
        bucketPercent_bounds (List.countP_le_length _)⟩
  · intro s hs
    rw [get_statistics_yearly] at hs
    by_cases h : yearEntries log y = []
    · rw [if_pos h] at hs
      cases hs
    · rw [if_neg h] at hs
      obtain rfl := (Option.some_inj.mp hs).symm
      exact ⟨Nat.pos_iff_ne_zero.mp (List.length_pos.mpr h),
        bucketPercent_bounds (List.countP_le_length _)⟩
  · rw [report_percent_eq]
    exact bucketPercent_bounds (List.countP_le_length _)
  · intro h
    have h0 : log.length = 0 := h
    rw [report_percent_eq, bucketPercent, if_neg (fun hn => hn h0)]

theorem C8_percent_guarded_witness :
    (get_additional_stats ([] : Log)).percent_sober = 0 ∧
    0 ≤ bucketPercent 1 2 ∧ bucketPercent 1 2 ≤ 100 := by
  have h1 := (C8_percent_guarded ([] : Log) (2024, 1) 2024).2.1 rfl
  have h2 := (C8_percent_guarded
      [("2024-01-01", ⟨some true, none⟩), ("2024-01-02", ⟨some false, none⟩)]
      (2024, 1) 2024).2.2.1 ⟨1, 2, 0 + DEFAULT_AMOUNT⟩ rfl
  exact ⟨h1, h2.2.1, h2.2.2⟩

/-- C9 (corrected), counterexample: on the log with the single entry
`{"2024-01-05": {"amount_spent": 50}}` (no `sober` key), the tracker's
overall spending is 50 but the report summary computes the default 40
— the two "overall spending" figures disagree. -/
theorem C9_counterexample :
    report_overall_spending [("2024-01-05", ⟨none, some (.num 50)⟩)] ≠
      .ok (overall_spending [("2024-01-05", ⟨none, some (.num 50)⟩)]) := by
  show Except.ok ((0 : ℚ) + DEFAULT_AMOUNT) ≠ .ok ((0 : ℚ) + 50)
  intro h
  have h' := Except.ok.inj h
  norm_num [DEFAULT_AMOUNT] at h'

/-- C9 (corrected), amended claim: the report's longest-streak and
current-streak figures always equal the tracker's (the code is a
verbatim copy); the report's overall spending equals the tracker's
whenever every entry not marked sober has a parsable date key, an
explicit `sober: false` field, and an `amount_spent` that is absent or
converts to a nonnegative number.  (Outside those conditions they can
differ: a missing `sober` key or a negative amount makes the report use
the default where the tracker uses the stored value, an unparsable date
is skipped only by the tracker, and an unconvertible amount makes the
report raise.) -/
theorem C9_report_summary (log : Log)
    (h : ∀ p ∈ log, soberGet p.2 = false →
      (parseDate p.1).isSome = true ∧ p.2.sober = some false ∧
      (p.2.amount_spent = none ∨ ∃ q : ℚ, p.2.amount_spent = some (.num q) ∧ 0 ≤ q)) :
    report_longest_streak log = (get_additional_stats log).longest_streak ∧
    report_current_seq log = (get_additional_stats log).current_streak ∧
    report_overall_spending log = .ok (overall_spending log) :=
  ⟨rfl, rfl, report_overall_eq_aux log h 0⟩

theorem C9_report_summary_witness :
    report_overall_spending
      [("2024-01-05", ⟨some false, some (.num 15)⟩), ("2024-01-06", ⟨some false, none⟩)] =
      .ok (overall_spending
        [("2024-01-05", ⟨some false, some (.num 15)⟩), ("2024-01-06", ⟨some false, none⟩)]) := by
  refine (C9_report_summary _ ?_).2.2
  intro p hp hs
  rcases List.mem_cons.mp hp with rfl | hp2
  · exact ⟨rfl, rfl, Or.inr ⟨15, rfl, by norm_num⟩⟩
  rcases List.mem_cons.mp hp2 with rfl | hp3
  · exact ⟨rfl, rfl, Or.inl rfl⟩
  · cases hp3

/-- C10 (corrected), counterexample: an entry lacking the `sober` field
with `amount_spent = 50` has effective spend 50, yet the report
summary's total for a log holding just that entry is the default 40:
the report does not apply the default-substitution rule to
missing-`sober` entries. -/
theorem C10_counterexample :
    report_overall_spending [("2024-01-05", ⟨none, some (.num 50)⟩)] = .ok DEFAULT_AMOUNT ∧
    effectiveSpend ⟨none, some (.num 50)⟩ = 50 ∧
    DEFAULT_AMOUNT ≠ (50 : ℚ) := by
  refine ⟨?_, rfl, by norm_num [DEFAULT_AMOUNT]⟩
  show Except.ok ((0 : ℚ) + DEFAULT_AMOUNT) = .ok DEFAULT_AMOUNT
  norm_num

/-- C10 (corrected), amended claim: an entry whose record lacks the
`sober` field is treated as a drinking day by every aggregation: it
reads as non-sober, the ascending walk zeroes the running streak on it,
the backwards loop stops on it immediately, the tracker's spending
steps add its effective spend (when its date parses) and the monthly
bucket counts it as a non-sober day with its effective spend — but the
report summary's term for it is always exactly the default amount,
regardless of its stored `amount_spent`. -/
theorem C10_missing_sober (e : Entry) (he : e.sober = none) :
    soberGet e = false ∧
    (∀ (st : StreakSt) (k : String) (d : Date), parseDate k = some d →
      streakStep st (k, e) = ⟨st.longest, 0, some d⟩) ∧
    (∀ (k : String) (r : Log),
      (((k, e) :: r).takeWhile (fun p => soberGet p.2)).length = 0) ∧
    (∀ (a : ℚ) (k : String) (d : Date), parseDate k = some d →
      overallStep a (k, e) = a + effectiveSpend e) ∧
    (∀ (st : Stats) (k : String) (d : Date), parseDate k = some d →
      (statStep st (k, e)).monthly (d.year, d.month) =
        some ⟨((st.monthly (d.year, d.month)).getD ⟨0, 0, 0⟩).sober_days,
              ((st.monthly (d.year, d.month)).getD ⟨0, 0, 0⟩).total_days + 1,
              ((st.monthly (d.year, d.month)).getD ⟨0, 0, 0⟩).spent + effectiveSpend e⟩) ∧
    reportSpendTerm e = .ok DEFAULT_AMOUNT := by
  have hsg : soberGet e = false := by rw [soberGet, he]; rfl
  refine ⟨hsg, ?_, ?_, ?_, ?_, ?_⟩
  · intro st k d hd
    simp [streakStep, hd, hsg]
  · intro k r
    simp [List.takeWhile_cons, hsg]
  · intro a k d hd
    simp [overallStep, hd, hsg]
  · intro st k d hd
    simp [statStep, hd, hsg]
  · rw [reportSpendTerm, he]
    rfl

theorem C10_missing_sober_witness :
    soberGet ⟨none, some (.num 50)⟩ = false ∧
    overallStep 0 ("2024-01-05", ⟨none, some (.num 50)⟩) =
      0 + effectiveSpend ⟨none, some (.num 50)⟩ :=
  ⟨(C10_missing_sober _ rfl).1,
   (C10_missing_sober _ rfl).2.2.2.1 0 "2024-01-05" ⟨2024, 1, 5⟩ rfl⟩
